import Mathlib

/-!
Verification development for the core of a tree-walking Monkey interpreter
(packages lexer, token, parser, ast, object, evaluator).

The Go source is shallowly embedded:

* the AST (`Stmt`/`Expr`) mirrors the node structs of ast.go; the
  `HashLiteral` node keeps its pairs as a list in source order (the Go
  parser stores them in a `map[ast.Expression]ast.Expression` keyed by the
  freshly allocated key expression pointers, so every parsed pair is
  retained; iteration order of that map is unspecified, which the
  evaluator embedding takes as an explicit reordering parameter `ord`);
* runtime objects (`Object`) mirror object.go; `ReturnValue`, `Function`,
  `Array` and `Hash` carry an allocation id that models Go pointer
  identity for the `==`/`!=` interface comparisons in
  `evalInfixExpression` (a `let` can bind the still-wrapped ReturnValue
  of an if-block, so wrapped values can reach those comparisons;
  booleans and null are canonical singletons, so structural equality
  models identity for them; a `Builtin` is allocated once per name in
  the package-level builtins table, so name equality models identity);
* Go interface values may be nil, so every position that holds an
  `object.Object` in Go holds an `Option Object` here (`none` = Go nil);
* environments are mutable and shared (closures), so they are embedded as
  a heap `EvalState.frames` of frames addressed by index, with
  `Object.Function` capturing the index of its defining frame;
* the evaluator `Eval` is defined by fuel recursion; `Res.timeout` marks
  fuel exhaustion (never a behaviour of the Go program), `Res.panic`
  marks a Go runtime panic (nil dereference, index out of range, integer
  division by zero), and `Res.ok v st` a normal return of the possibly-nil
  value `v` in heap state `st`;
* int64 arithmetic wraps, modelled by `wrap64`.
-/

/-- Token kinds from token/token.go (the closed set listed in the spec). -/
inductive TokenType where
  | ILLEGAL | EOF
  | IDENT | INT | STRING
  | ASSIGN | PLUS | MINUS | BANG | ASTERISK | SLASH
  | LT | GT | EQ | NOT_EQ
  | COMMA | SEMICOLON | COLON
  | LPAREN | RPAREN | LBRACE | RBRACE | LBRACKET | RBRACKET
  | FUNCTION | LET | TRUE | FALSE | IF | ELSE | RETURN
deriving DecidableEq, Repr

/-- A token is a kind together with the literal text (a list of bytes). -/
structure Token where
  type : TokenType
  literal : List Nat
deriving DecidableEq, Repr

mutual

/-- Expression nodes of ast.go.  `HashLiteral` keeps the parsed pairs as a
list in source (insertion) order; see the header comment. -/
inductive Expr where
  | Identifier (value : String)
  | IntegerLiteral (value : Int)
  | BooleanLiteral (value : Bool)
  | StringLiteral (value : String)
  | PrefixExpression (operator : String) (right : Expr)
  | InfixExpression (operator : String) (left : Expr) (right : Expr)
  | IfExpression (condition : Expr) (consequence : List Stmt)
      (alternative : Option (List Stmt))
  | FunctionLiteral (parameters : List String) (body : List Stmt)
  | CallExpression (function : Expr) (arguments : List Expr)
  | ArrayLiteral (elements : List Expr)
  | IndexExpression (left : Expr) (index : Expr)
  | HashLiteral (pairs : List (Expr × Expr))

/-- Statement nodes of ast.go. -/
inductive Stmt where
  | LetStatement (name : String) (value : Expr)
  | ReturnStatement (returnValue : Expr)
  | ExpressionStatement (expression : Expr)
  | BlockStatement (statements : List Stmt)

end

/-- Hash keys from object.go: an object type tag and a uint64 payload. -/
structure HashKey where
  type : String
  value : Nat
deriving DecidableEq, Repr

/-- Runtime objects from object.go.  `ReturnValue`, array elements, hash
pair values and environment entries hold `Option Object` because the Go
interface value they store may be nil.  The `id` fields model Go pointer
identity of the heap-allocated objects (see the header comment). -/
inductive Object where
  | Integer (value : Int)
  | Boolean (value : Bool)
  | Null
  | String (value : String)
  | ReturnValue (id : Nat) (value : Option Object)
  | Error (message : String)
  | Function (id : Nat) (parameters : List String) (body : List Stmt) (env : Nat)
  | Builtin (name : String)
  | Array (id : Nat) (elements : List (Option Object))
  | Hash (id : Nat) (pairs : List (HashKey × Object × Option Object))

/-- A Go `object.Object` interface value: possibly nil. -/
abbrev GoObj := Option Object

/-- `Object.Type()` from object.go (the `*_OBJ` constants). -/
def objType : Object → String
  | .Integer _ => "INTEGER"
  | .Boolean _ => "BOOLEAN"
  | .Null => "NULL"
  | .String _ => "STRING"
  | .ReturnValue _ _ => "RETURN_VALUE"
  | .Error _ => "ERROR"
  | .Function _ _ _ _ => "FUNCTION"
  | .Builtin _ => "BUILTIN"
  | .Array _ _ => "ARRAY"
  | .Hash _ _ => "HASH"

/-- Message of the Go runtime panic raised by dereferencing a nil
interface value (calling `.Type()` on nil). -/
def nilDeref : String := "runtime error: invalid memory address or nil pointer dereference"

/-- Message of the Go runtime panic raised by an out-of-range slice index. -/
def indexOutOfRange : String := "runtime error: index out of range"

/-- Message of the Go runtime panic raised by integer division by zero. -/
def divideByZero : String := "runtime error: integer divide by zero"

/-- Two's-complement wrap-around of Go int64 arithmetic. -/
def wrap64 (n : Int) : Int := (n + 2 ^ 63) % 2 ^ 64 - 2 ^ 63

/-- The uint64 bit pattern of an int64 (used by `Integer.HashKey`). -/
def u64 (n : Int) : Nat := (n % 2 ^ 64).toNat

/-- One step of FNV-1a: xor in a byte, multiply by the 64-bit FNV prime. -/
def fnvStep (h b : Nat) : Nat := ((h ^^^ b) * 1099511628211) % 2 ^ 64

/-- FNV-1a 64-bit hash of a byte sequence (hash/fnv, used by
`String.HashKey` in object.go). -/
def fnv1a (bytes : List Nat) : Nat := bytes.foldl fnvStep 14695981039346656037

/-- `HashKey()` from object.go, defined exactly for the `Hashable`
objects (Integer, Boolean, String); `none` for every other object, which
models a failed `.(object.Hashable)` type assertion. -/
def hashKeyOf : Object → Option HashKey
  | .Integer v => some ⟨"INTEGER", u64 v⟩
  | .Boolean b => some ⟨"BOOLEAN", if b then 1 else 0⟩
  | .String s => some ⟨"STRING", fnv1a (s.toUTF8.toList.map (fun b => b.toNat))⟩
  | _ => none

/-- `isError` from evaluator.go: nil is not an error. -/
def isError : GoObj → Bool
  | some (.Error _) => true
  | _ => false

/-- `isTruthy` from evaluator.go: the switch compares against the NULL,
TRUE and FALSE singletons; everything else — Go nil included — hits the
default case and is truthy. -/
def isTruthy : GoObj → Bool
  | some .Null => false
  | some (.Boolean b) => b
  | _ => true

/-- `unwrapReturnValue` from evaluator.go. -/
def unwrapReturnValue : GoObj → GoObj
  | some (.ReturnValue _ v) => v
  | o => o

/-- Go `==` on two (possibly nil) `object.Object` interface values: equal
dynamic type and equal pointer.  Booleans and null are the canonical
singletons; return values, functions, arrays and hashes compare by
allocation id (a still-wrapped ReturnValue can be bound by a `let` and
compared later, so that row is reachable); the builtins table holds one
`*object.Builtin` per name.  The Integer, String and Error rows are
unreachable from `evalInfixExpression` (the both-INTEGER and both-STRING
cases fire first, and errors are propagated before any operator is
applied), and distinct allocations of them are unequal in Go, so they
are modelled as `false`. -/
def objIdentical : Object → Object → Bool
  | .Boolean a, .Boolean b => a == b
  | .Null, .Null => true
  | .ReturnValue i _, .ReturnValue j _ => i == j
  | .Function i _ _ _, .Function j _ _ _ => i == j
  | .Array i _, .Array j _ => i == j
  | .Hash i _, .Hash j _ => i == j
  | .Builtin a, .Builtin b => a == b
  | _, _ => false

/-- Go `==` lifted to possibly-nil interface values. -/
def goEq : GoObj → GoObj → Bool
  | none, none => true
  | some a, some b => objIdentical a b
  | _, _ => false

/-- `evalBangOperatorExpression` from evaluator.go: the switch compares
`right` with the TRUE/FALSE/NULL singletons; anything else (nil
included) is the default case. -/
def evalBangOperatorExpression : GoObj → Object
  | some (.Boolean true) => .Boolean false
  | some (.Boolean false) => .Boolean true
  | some .Null => .Boolean true
  | _ => .Boolean false

/-- `evalMinusPrefixOperatorExpression` from evaluator.go; calling
`right.Type()` on nil panics (`Except.error` = panic). -/
def evalMinusPrefixOperatorExpression : GoObj → Except String Object
  | none => .error nilDeref
  | some (.Integer v) => .ok (.Integer (wrap64 (-v)))
  | some r => .ok (.Error ("unknown operator: -" ++ objType r))

/-- `evalPrefixExpression` from evaluator.go. -/
def evalPrefixExpression (operator : String) (right : GoObj) : Except String Object :=
  if operator = "!" then .ok (evalBangOperatorExpression right)
  else if operator = "-" then evalMinusPrefixOperatorExpression right
  else
    match right with
    | none => .error nilDeref
    | some r => .ok (.Error ("unknown operator: " ++ operator ++ objType r))

/-- `evalIntegerInfixExpression` from evaluator.go over the two int64
values.  Go `/` truncates toward zero and panics on a zero divisor; the
arithmetic wraps. -/
def evalIntegerInfixExpression (operator : String) (lv rv : Int) : Except String Object :=
  if operator = "+" then .ok (.Integer (wrap64 (lv + rv)))
  else if operator = "-" then .ok (.Integer (wrap64 (lv - rv)))
  else if operator = "*" then .ok (.Integer (wrap64 (lv * rv)))
  else if operator = "/" then
    if rv = 0 then .error divideByZero else .ok (.Integer (wrap64 (lv.tdiv rv)))
  else if operator = "<" then .ok (.Boolean (decide (lv < rv)))
  else if operator = ">" then .ok (.Boolean (decide (rv < lv)))
  else if operator = "==" then .ok (.Boolean (lv == rv))
  else if operator = "!=" then .ok (.Boolean (lv != rv))
  else .ok (.Error ("unknown operator: INTEGER " ++ operator ++ " INTEGER"))

/-- `evalStringInfixExpression` from evaluator.go: only `+` is defined. -/
def evalStringInfixExpression (operator : String) (lv rv : String) : Object :=
  if operator ≠ "+" then .Error ("unknown operator: STRING " ++ operator ++ " STRING")
  else .String (lv ++ rv)

/-- `evalInfixExpression` from evaluator.go.  The Go switch evaluates its
case conditions in order with short-circuiting `&&`; `.Type()` on a nil
interface value panics, which is what the `nilDeref` rows model. -/
def evalInfixExpression (operator : String) (left right : GoObj) : Except String Object :=
  match left with
  | none => .error nilDeref
  | some l =>
    match l, right with
    | .Integer _, none => .error nilDeref
    | .Integer lv, some (.Integer rv) => evalIntegerInfixExpression operator lv rv
    | .String _, none => .error nilDeref
    | .String lv, some (.String rv) => .ok (evalStringInfixExpression operator lv rv)
    | _, _ =>
      if operator = "==" then .ok (.Boolean (goEq left right))
      else if operator = "!=" then .ok (.Boolean (!goEq left right))
      else
        match right with
        | none => .error nilDeref
        | some r =>
          if objType l ≠ objType r then
            .ok (.Error ("type mismatch: " ++ objType l ++ " " ++ operator ++ " " ++ objType r))
          else
            .ok (.Error ("unknown operator: " ++ objType l ++ " " ++ operator ++ " " ++ objType r))

/-- An environment frame from object/enviroment.go: a name→value store
and an optional enclosing frame.  The store holds possibly-nil values
(a `let` can bind the nil result of a call).  Frames are addressed by
their index into the heap `EvalState.frames`, which models the shared
mutable `*Environment` pointers of Go. -/
structure Frame where
  store : List (String × GoObj)
  outer : Option Nat

/-- The mutable part of evaluation: the heap of environment frames plus
the allocation counter that hands out the identity ids of freshly
constructed functions, arrays and hashes. -/
structure EvalState where
  frames : List Frame
  nextId : Nat

/-- Lookup in one frame's store (a Go map read: value plus ok flag). -/
def storeGet : List (String × GoObj) → String → Option GoObj
  | [], _ => none
  | (k, v) :: rest, name => if k = name then some v else storeGet rest name

/-- Write into one frame's store (a Go map write). -/
def storeSet : List (String × GoObj) → String → GoObj → List (String × GoObj)
  | [], name, val => [(name, val)]
  | (k, v) :: rest, name, val =>
    if k = name then (k, val) :: rest else (k, v) :: storeSet rest name val

/-- `Environment.Get` from object/enviroment.go: search the innermost
frame, then recurse into the outer frame.  The recursion is bounded by a
fuel argument; every state the evaluator builds has outer indices
strictly below the frame's own index (frames are only created by
`NewEnclosedEnvironment` pointing at an existing frame), so fuel
`st.frames.length` always suffices to walk the chain. -/
def envGetAux : Nat → EvalState → Nat → String → Option GoObj
  | 0, _, _, _ => none
  | fuel + 1, st, idx, name =>
    match st.frames.get? idx with
    | none => none
    | some f =>
      match storeGet f.store name with
      | some v => some v
      | none =>
        match f.outer with
        | none => none
        | some o => envGetAux fuel st o name

/-- `Environment.Get`: `some v` models `(v, true)`, `none` models
`(nil, false)`. -/
def envGet (st : EvalState) (idx : Nat) (name : String) : Option GoObj :=
  envGetAux st.frames.length st idx name

/-- `Environment.Set` from object/enviroment.go: write unconditionally
into the innermost (addressed) frame. -/
def envSet (st : EvalState) (idx : Nat) (name : String) (val : GoObj) : EvalState :=
  match st.frames.get? idx with
  | some f => ⟨st.frames.set idx ⟨storeSet f.store name val, f.outer⟩, st.nextId⟩
  | none => st

/-- `NewEnclosedEnvironment` from object/enviroment.go: push a fresh
frame whose outer pointer is the given frame; its address is the old heap
size. -/
def newEnclosedEnvironment (st : EvalState) (outer : Nat) : Nat × EvalState :=
  (st.frames.length, ⟨st.frames ++ [⟨[], some outer⟩], st.nextId⟩)

/-- Allocate a fresh identity id for a function, array or hash object. -/
def allocId (st : EvalState) : Nat × EvalState :=
  (st.nextId, ⟨st.frames, st.nextId + 1⟩)

/-- Modelled from the spec: the package-level builtins table of
evaluator/builtin.go is not under src (only its lookup in
`evalIdentifier` is); §4.6 of the spec names `len`, `first`, `last`,
`rest`, `push` and `puts` as the canonical set. -/
def builtins (name : String) : Option Object :=
  if name = "len" ∨ name = "first" ∨ name = "last" ∨ name = "rest" ∨
      name = "push" ∨ name = "puts" then
    some (.Builtin name)
  else none

/-- Modelled from the spec: the host callables behind the builtins table
are not under src.  Only `len` is described concretely by the spec
(String → byte length, Array → element count, anything else an error);
the remaining builtins are left as an error value here.  No claim
depends on this definition. -/
def builtinApply (name : String) (args : List GoObj) : GoObj :=
  if name = "len" then
    match args with
    | [some (.String s)] => some (.Integer s.utf8ByteSize)
    | [some (.Array _ elements)] => some (.Integer elements.length)
    | [some o] => some (.Error ("argument to len not supported, got " ++ objType o))
    | _ => some (.Error "wrong number of arguments")
  else some (.Error ("builtin not modelled: " ++ name))

/-- `evalIdentifier` from evaluator.go: environment first, builtins
table second, `identifier not found` otherwise. -/
def evalIdentifier (st : EvalState) (env : Nat) (name : String) : GoObj :=
  match envGet st env name with
  | some v => v
  | none =>
    match builtins name with
    | some b => some b
    | none => some (.Error ("identifier not found: " ++ name))

/-- `evalArrayIndexExpression` from evaluator.go: `NULL` outside
`[0, len-1]`, otherwise Go slice indexing. -/
def evalArrayIndexExpression (elements : List GoObj) (idx : Int) : GoObj :=
  if idx < 0 ∨ (elements.length : Int) - 1 < idx then some .Null
  else elements.getD idx.toNat none

/-- Lookup in an `object.Hash`'s pair map by HashKey. -/
def hashLookup : List (HashKey × Object × GoObj) → HashKey → Option (Object × GoObj)
  | [], _ => none
  | (hk, k, v) :: rest, key => if hk = key then some (k, v) else hashLookup rest key

/-- Write into an `object.Hash`'s pair map: a Go map write replaces the
stored HashPair of an existing HashKey, otherwise adds a new entry. -/
def hashInsert : List (HashKey × Object × GoObj) → HashKey → Object → GoObj →
    List (HashKey × Object × GoObj)
  | [], key, k, v => [(key, k, v)]
  | (hk, k0, v0) :: rest, key, k, v =>
    if hk = key then (hk, k, v) :: rest else (hk, k0, v0) :: hashInsert rest key k v

/-- `evalHashIndexExpression` from evaluator.go.  A nil index panics
inside the error construction (`index.Type()`); a non-hashable index is
`unusable as hash key`; a missing key is `NULL`. -/
def evalHashIndexExpression (pairs : List (HashKey × Object × GoObj)) (index : GoObj) :
    Except String GoObj :=
  match index with
  | none => .error nilDeref
  | some k =>
    match hashKeyOf k with
    | none => .ok (some (.Error ("unusable as hash key: " ++ objType k)))
    | some hk =>
      match hashLookup pairs hk with
      | none => .ok (some .Null)
      | some (_, value) => .ok value

/-- `evalIndexExpression` from evaluator.go.  The first case condition
calls `left.Type()` (panics on nil) and, when the left side is an array,
`index.Type()` (panics on a nil index). -/
def evalIndexExpression (left index : GoObj) : Except String GoObj :=
  match left with
  | none => .error nilDeref
  | some (.Array _ elements) =>
    match index with
    | none => .error nilDeref
    | some (.Integer i) => .ok (evalArrayIndexExpression elements i)
    | some _ => .ok (some (.Error "index operator not supported: ARRAY"))
  | some (.Hash _ pairs) => evalHashIndexExpression pairs index
  | some l => .ok (some (.Error ("index operator not supported: " ++ objType l)))

/-- The nodes `Eval` dispatches on (the `ast.Node` cases of the switch
that the embedding needs: a whole program, a statement, an expression). -/
inductive Node where
  | program (statements : List Stmt)
  | stmt (s : Stmt)
  | expr (e : Expr)

/-- Result of one `Eval` call: a normal return of a possibly-nil value in
a new heap state, a Go runtime panic, or fuel exhaustion (`timeout` is an
artefact of the embedding, not a behaviour of the Go program). -/
inductive Res where
  | ok (value : GoObj) (st : EvalState)
  | panic (msg : String)
  | timeout

/-- Loop of `evalProgram` from evaluator.go, parameterised by the
evaluation of one statement; `result` starts as Go nil and holds the last
statement's value. -/
def evalProgramGo (evalS : Stmt → Nat → EvalState → Res) :
    List Stmt → GoObj → Nat → EvalState → Res
  | [], result, _, st => .ok result st
  | s :: rest, _, env, st =>
    match evalS s env st with
    | .ok result st1 =>
      match result with
      | some (.ReturnValue _ v) => .ok v st1
      | some (.Error m) => .ok (some (.Error m)) st1
      | _ => evalProgramGo evalS rest result env st1
    | r => r

/-- Loop of `evalBlockStatement` from evaluator.go: a non-nil
RETURN_VALUE or ERROR result is returned still wrapped. -/
def evalBlockStatementGo (evalS : Stmt → Nat → EvalState → Res) :
    List Stmt → GoObj → Nat → EvalState → Res
  | [], result, _, st => .ok result st
  | s :: rest, _, env, st =>
    match evalS s env st with
    | .ok result st1 =>
      match result with
      | some (.ReturnValue rid v) => .ok (some (.ReturnValue rid v)) st1
      | some (.Error m) => .ok (some (.Error m)) st1
      | _ => evalBlockStatementGo evalS rest result env st1
    | r => r

/-- Result of `evalExpressions`: a list of evaluated (possibly nil)
values, or a propagated panic/timeout. -/
inductive ListRes where
  | ok (values : List GoObj) (st : EvalState)
  | panic (msg : String)
  | timeout

/-- `evalExpressions` from evaluator.go: evaluate left to right; on the
first error discard everything and return the one-element error list. -/
def evalExpressionsGo (evalE : Expr → Nat → EvalState → Res) :
    List Expr → Nat → EvalState → ListRes
  | [], _, st => .ok [] st
  | e :: rest, env, st =>
    match evalE e env st with
    | .ok v st1 =>
      if isError v then .ok [v] st1
      else
        match evalExpressionsGo evalE rest env st1 with
        | .ok vs st2 => .ok (v :: vs) st2
        | r => r
    | .panic m => .panic m
    | .timeout => .timeout

/-- The `for paramIdx, param := range fn.Parameters` loop of
`extendFunctionEnv`: `args[paramIdx]` panics when there are fewer
arguments than parameters. -/
def bindParams : List String → Nat → List GoObj → Nat → EvalState →
    Except String EvalState
  | [], _, _, _, st => .ok st
  | p :: ps, i, args, envIdx, st =>
    match args.get? i with
    | none => .error indexOutOfRange
    | some a => bindParams ps (i + 1) args envIdx (envSet st envIdx p a)

/-- `extendFunctionEnv` from evaluator.go: a fresh frame enclosed by the
function's captured environment, with each parameter bound positionally
to `args[paramIdx]`. -/
def extendFunctionEnv (parameters : List String) (fnEnv : Nat) (args : List GoObj)
    (st : EvalState) : Except String (Nat × EvalState) :=
  match newEnclosedEnvironment st fnEnv with
  | (envIdx, st1) =>
    match bindParams parameters 0 args envIdx st1 with
    | .ok st2 => .ok (envIdx, st2)
    | .error m => .error m

/-- `applyFunction` from evaluator.go, parameterised by the evaluation of
the function body.  A nil callee panics inside the `not a function`
error construction (`fn.Type()`). -/
def applyFunction (evalBody : List Stmt → Nat → EvalState → Res)
    (fn : GoObj) (args : List GoObj) (st : EvalState) : Res :=
  match fn with
  | some (.Function _ parameters body fnEnv) =>
    match extendFunctionEnv parameters fnEnv args st with
    | .error m => .panic m
    | .ok (envIdx, st1) =>
      match evalBody body envIdx st1 with
      | .ok v st2 => .ok (unwrapReturnValue v) st2
      | r => r
  | some (.Builtin name) => .ok (builtinApply name args) st
  | some o => .ok (some (.Error ("not a function: " ++ objType o))) st
  | none => .panic nilDeref

/-- Loop of `evalHashLiteral` from evaluator.go over the pairs in the
order the Go map iteration yields them: evaluate the key, require it
hashable (a nil key panics inside the error construction), evaluate the
value, store the pair. -/
def evalHashLiteralGo (evalE : Expr → Nat → EvalState → Res) :
    List (Expr × Expr) → List (HashKey × Object × GoObj) → Nat → EvalState → Res
  | [], pairs, _, st =>
    match allocId st with
    | (id, st1) => .ok (some (.Hash id pairs)) st1
  | (keyNode, valueNode) :: rest, pairs, env, st =>
    match evalE keyNode env st with
    | .ok key st1 =>
      if isError key then .ok key st1
      else
        match key with
        | none => .panic nilDeref
        | some k =>
          match hashKeyOf k with
          | none => .ok (some (.Error ("unusable as hash key: " ++ objType k))) st1
          | some hk =>
            match evalE valueNode env st1 with
            | .ok value st2 =>
              if isError value then .ok value st2
              else evalHashLiteralGo evalE rest (hashInsert pairs hk k value) env st2
            | r => r
    | r => r

/-- One layer of `Eval` from evaluator.go, with `ih` in place of the
recursive calls.  `ord` models the unspecified iteration order of the Go
map `ast.HashLiteral.Pairs`: the loop of `evalHashLiteral` runs over
`ord pairs` instead of the source-order list. -/
def evalStep (ord : List (Expr × Expr) → List (Expr × Expr))
    (ih : Node → Nat → EvalState → Res) : Node → Nat → EvalState → Res
  | .program statements, env, st =>
    evalProgramGo (fun s => ih (.stmt s)) statements none env st
  | .stmt (.ExpressionStatement e), env, st => ih (.expr e) env st
  | .stmt (.BlockStatement statements), env, st =>
    evalBlockStatementGo (fun s => ih (.stmt s)) statements none env st
  | .stmt (.ReturnStatement e), env, st =>
    match ih (.expr e) env st with
    | .ok val st1 =>
      if isError val then .ok val st1
      else
        match allocId st1 with
        | (id, st2) => .ok (some (.ReturnValue id val)) st2
    | r => r
  | .stmt (.LetStatement name e), env, st =>
    match ih (.expr e) env st with
    | .ok val st1 =>
      if isError val then .ok val st1
      else .ok none (envSet st1 env name val)
    | r => r
  | .expr (.IntegerLiteral v), _, st => .ok (some (.Integer v)) st
  | .expr (.StringLiteral s), _, st => .ok (some (.String s)) st
  | .expr (.BooleanLiteral b), _, st => .ok (some (.Boolean b)) st
  | .expr (.PrefixExpression operator right), env, st =>
    match ih (.expr right) env st with
    | .ok r st1 =>
      if isError r then .ok r st1
      else
        match evalPrefixExpression operator r with
        | .ok o => .ok (some o) st1
        | .error m => .panic m
    | r => r
  | .expr (.InfixExpression operator left right), env, st =>
    match ih (.expr left) env st with
    | .ok l st1 =>
      if isError l then .ok l st1
      else
        match ih (.expr right) env st1 with
        | .ok r st2 =>
          if isError r then .ok r st2
          else
            match evalInfixExpression operator l r with
            | .ok o => .ok (some o) st2
            | .error m => .panic m
        | r => r
    | r => r
  | .expr (.IfExpression condition consequence alternative), env, st =>
    match ih (.expr condition) env st with
    | .ok c st1 =>
      if isError c then .ok c st1
      else if isTruthy c then ih (.stmt (.BlockStatement consequence)) env st1
      else
        match alternative with
        | some a => ih (.stmt (.BlockStatement a)) env st1
        | none => .ok (some .Null) st1
    | r => r
  | .expr (.Identifier name), env, st => .ok (evalIdentifier st env name) st
  | .expr (.FunctionLiteral parameters body), env, st =>
    match allocId st with
    | (id, st1) => .ok (some (.Function id parameters body env)) st1
  | .expr (.CallExpression f arguments), env, st =>
    match ih (.expr f) env st with
    | .ok fn st1 =>
      if isError fn then .ok fn st1
      else
        match evalExpressionsGo (fun e => ih (.expr e)) arguments env st1 with
        | .ok args st2 =>
          match args with
          | [a] =>
            if isError a then .ok a st2
            else applyFunction (fun b => ih (.stmt (.BlockStatement b))) fn args st2
          | _ => applyFunction (fun b => ih (.stmt (.BlockStatement b))) fn args st2
        | .panic m => .panic m
        | .timeout => .timeout
    | r => r
  | .expr (.ArrayLiteral elements), env, st =>
    match evalExpressionsGo (fun e => ih (.expr e)) elements env st with
    | .ok elems st1 =>
      match elems with
      | [a] =>
        if isError a then .ok a st1
        else
          match allocId st1 with
          | (id, st2) => .ok (some (.Array id elems)) st2
      | _ =>
        match allocId st1 with
        | (id, st2) => .ok (some (.Array id elems)) st2
    | .panic m => .panic m
    | .timeout => .timeout
  | .expr (.IndexExpression left index), env, st =>
    match ih (.expr left) env st with
    | .ok l st1 =>
      if isError l then .ok l st1
      else
        match ih (.expr index) env st1 with
        | .ok i st2 =>
          if isError i then .ok i st2
          else
            match evalIndexExpression l i with
            | .ok v => .ok v st2
            | .error m => .panic m
        | r => r
    | r => r
  | .expr (.HashLiteral pairs), env, st =>
    evalHashLiteralGo (fun e => ih (.expr e)) (ord pairs) [] env st

/-- `Eval` from evaluator.go, by fuel recursion; `ord` is the hash-pair
iteration order (see `evalStep`). -/
def Eval (ord : List (Expr × Expr) → List (Expr × Expr)) :
    Nat → Node → Nat → EvalState → Res
  | 0, _, _, _ => .timeout
  | fuel + 1, n, env, st => evalStep ord (Eval ord fuel) n env st

/-- The initial heap: one root frame (`object.NewEnvironment`), no
allocations yet. -/
def initState : EvalState := ⟨[⟨[], none⟩], 0⟩

/-- The lexer state from lexer/lexer.go: the input bytes, the current
byte position, the next read position, and the current byte (0 at end of
input). -/
structure Lexer where
  input : List Nat
  position : Nat
  readPosition : Nat
  ch : Nat
deriving DecidableEq, Repr

/-- `readChar` from lexer/lexer.go. -/
def readChar (l : Lexer) : Lexer :=
  ⟨l.input, l.readPosition, l.readPosition + 1,
    if l.input.length ≤ l.readPosition then 0 else l.input.getD l.readPosition 0⟩

/-- `New` from lexer/lexer.go. -/
def lexerNew (input : List Nat) : Lexer := readChar ⟨input, 0, 0, 0⟩

/-- `peekChar` from lexer/lexer.go. -/
def peekChar (l : Lexer) : Nat :=
  if l.input.length ≤ l.readPosition then 0 else l.input.getD l.readPosition 0

/-- `isLetter` from lexer/lexer.go: ASCII letters and underscore. -/
def isLetter (ch : Nat) : Bool :=
  (97 ≤ ch ∧ ch ≤ 122) ∨ (65 ≤ ch ∧ ch ≤ 90) ∨ ch = 95

/-- `isDigit` from lexer/lexer.go. -/
def isDigit (ch : Nat) : Bool := 48 ≤ ch ∧ ch ≤ 57

/-- The whitespace set of `skipWhitespace`: space, tab, LF, CR. -/
def isWhitespace (ch : Nat) : Bool := ch = 32 ∨ ch = 9 ∨ ch = 10 ∨ ch = 13

/-- The loop of `skipWhitespace`, bounded by fuel.  Fuel
`l.input.length + 2` always suffices: each iteration consumes a byte of
the remaining input, and past the end `ch` is 0, which is not
whitespace. -/
def skipWhitespaceAux : Nat → Lexer → Lexer
  | 0, l => l
  | fuel + 1, l => if isWhitespace l.ch then skipWhitespaceAux fuel (readChar l) else l

/-- `skipWhitespace` from lexer/lexer.go. -/
def skipWhitespace (l : Lexer) : Lexer := skipWhitespaceAux (l.input.length + 2) l

/-- The loops of `readIdentifier`/`readNumber`: advance while the current
byte satisfies `p`, bounded by fuel as for `skipWhitespaceAux`. -/
def readRunAux (p : Nat → Bool) : Nat → Lexer → Lexer
  | 0, l => l
  | fuel + 1, l => if p l.ch then readRunAux p fuel (readChar l) else l

/-- Go slice `input[a:b]`. -/
def sliceBytes (input : List Nat) (a b : Nat) : List Nat := (input.take b).drop a

/-- `readIdentifier` from lexer/lexer.go: the literal and the advanced
lexer. -/
def readIdentifier (l : Lexer) : List Nat × Lexer :=
  (sliceBytes l.input l.position (readRunAux isLetter (l.input.length + 2) l).position,
   readRunAux isLetter (l.input.length + 2) l)

/-- `readNumber` from lexer/lexer.go. -/
def readNumber (l : Lexer) : List Nat × Lexer :=
  (sliceBytes l.input l.position (readRunAux isDigit (l.input.length + 2) l).position,
   readRunAux isDigit (l.input.length + 2) l)

/-- The loop of `readString`: advance once, stop on a closing quote or on
the 0 sentinel. -/
def readStringAux : Nat → Lexer → Lexer
  | 0, l => l
  | fuel + 1, l =>
    match readChar l with
    | l1 => if l1.ch = 34 ∨ l1.ch = 0 then l1 else readStringAux fuel l1

/-- `readString` from lexer/lexer.go. -/
def readStringGo (l : Lexer) : List Nat × Lexer :=
  (sliceBytes l.input (l.position + 1) (readStringAux (l.input.length + 2) l).position,
   readStringAux (l.input.length + 2) l)

/-- Byte list of an ASCII string (the lexer is byte-at-a-time; multi-byte
source characters are unsupported by design). -/
def strBytes (s : String) : List Nat := s.data.map Char.toNat

/-- Modelled from the spec: `token.LookupIdent` and the keywords table of
token/token.go are not under src; the reserved words are fn, let, true,
false, if, else and return, every other identifier run is IDENT
(spec §3, §4.1). -/
def lookupIdent (lit : List Nat) : TokenType :=
  if lit = strBytes "fn" then .FUNCTION
  else if lit = strBytes "let" then .LET
  else if lit = strBytes "true" then .TRUE
  else if lit = strBytes "false" then .FALSE
  else if lit = strBytes "if" then .IF
  else if lit = strBytes "else" then .ELSE
  else if lit = strBytes "return" then .RETURN
  else .IDENT

/-- `newToken` from lexer/lexer.go. -/
def newTokenByte (t : TokenType) (ch : Nat) : Token := ⟨t, [ch]⟩

/-- The switch of `NextToken` from lexer/lexer.go on the current byte
(after the whitespace skip).  Every branch ends with `readChar` except
the identifier and number branches, whose read loops have already
advanced the lexer. -/
def nextTokenSwitch (l1 : Lexer) : Token × Lexer :=
    if l1.ch = 61 then
      if peekChar l1 = 61 then
        (⟨.EQ, [l1.ch, (readChar l1).ch]⟩, readChar (readChar l1))
      else (newTokenByte .ASSIGN l1.ch, readChar l1)
    else if l1.ch = 43 then (newTokenByte .PLUS l1.ch, readChar l1)
    else if l1.ch = 45 then (newTokenByte .MINUS l1.ch, readChar l1)
    else if l1.ch = 33 then
      if peekChar l1 = 61 then
        (⟨.NOT_EQ, [l1.ch, (readChar l1).ch]⟩, readChar (readChar l1))
      else (newTokenByte .BANG l1.ch, readChar l1)
    else if l1.ch = 47 then (newTokenByte .SLASH l1.ch, readChar l1)
    else if l1.ch = 42 then (newTokenByte .ASTERISK l1.ch, readChar l1)
    else if l1.ch = 60 then (newTokenByte .LT l1.ch, readChar l1)
    else if l1.ch = 62 then (newTokenByte .GT l1.ch, readChar l1)
    else if l1.ch = 59 then (newTokenByte .SEMICOLON l1.ch, readChar l1)
    else if l1.ch = 44 then (newTokenByte .COMMA l1.ch, readChar l1)
    else if l1.ch = 123 then (newTokenByte .LBRACE l1.ch, readChar l1)
    else if l1.ch = 125 then (newTokenByte .RBRACE l1.ch, readChar l1)
    else if l1.ch = 40 then (newTokenByte .LPAREN l1.ch, readChar l1)
    else if l1.ch = 41 then (newTokenByte .RPAREN l1.ch, readChar l1)
    else if l1.ch = 34 then
      (⟨.STRING, (readStringGo l1).1⟩, readChar (readStringGo l1).2)
    else if l1.ch = 91 then (newTokenByte .LBRACKET l1.ch, readChar l1)
    else if l1.ch = 93 then (newTokenByte .RBRACKET l1.ch, readChar l1)
    else if l1.ch = 58 then (newTokenByte .COLON l1.ch, readChar l1)
    else if l1.ch = 0 then (⟨.EOF, []⟩, readChar l1)
    else if isLetter l1.ch then
      (⟨lookupIdent (readIdentifier l1).1, (readIdentifier l1).1⟩, (readIdentifier l1).2)
    else if isDigit l1.ch then
      (⟨.INT, (readNumber l1).1⟩, (readNumber l1).2)
    else (newTokenByte .ILLEGAL l1.ch, readChar l1)

/-- `NextToken` from lexer/lexer.go: skip whitespace, then the switch. -/
def NextToken (l : Lexer) : Token × Lexer := nextTokenSwitch (skipWhitespace l)

/-- The lexer state before the (n+1)-th `NextToken` call on `input`. -/
def lexState (input : List Nat) : Nat → Lexer
  | 0 => lexerNew input
  | n + 1 => (NextToken (lexState input n)).2

/-- The token returned by the (n+1)-th `NextToken` call on `input`. -/
def tokenAt (input : List Nat) (n : Nat) : Token :=
  (NextToken (lexState input n)).1

/-- The digit loop of strconv's parseUint over digit values: a digit at
or above the base is a syntax error. -/
def parseUintDigits (base : Nat) : List Nat → Nat → Option Nat
  | [], acc => some acc
  | d :: rest, acc =>
    if d < base then parseUintDigits base rest (acc * base + d) else none

/-- `strconv.ParseInt(s, 0, 64)` from the Go standard library, restricted
to the only literals the lexer ever hands to `parseIntegerLiteral`: a
nonempty run of decimal digits (given as digit values).  Base 0 selects
the base from the prefix: a leading 0 followed by more digits means base
8 applied to the remaining digits (a 0b/0o/0x prefix cannot occur inside
a digit run); otherwise base 10.  A digit 8 or 9 after a leading 0 is a
syntax error, and a value at or above 2^63 is a range error (a digit run
carries no minus sign). -/
def parseIntBase0 : List Nat → Option Int
  | [] => none
  | d :: rest =>
    if d = 0 ∧ rest ≠ [] then
      match parseUintDigits 8 rest 0 with
      | some v => if v < 2 ^ 63 then some (v : Int) else none
      | none => none
    else
      match parseUintDigits 10 (d :: rest) 0 with
      | some v => if v < 2 ^ 63 then some (v : Int) else none
      | none => none

/-- The bytes of a token literal as a string (for error messages). -/
def bytesToString (lit : List Nat) : String :=
  (lit.map Char.ofNat).asString

/-- `parseIntegerLiteral` from parser/parser.go: convert the INT token's
literal with `strconv.ParseInt(lit, 0, 64)`; on failure append
`could not parse "<lit>" as integer` to the parser's errors and return a
nil expression. -/
def parseIntegerLiteral (lit : List Nat) : Option Expr × List String :=
  match parseIntBase0 (lit.map (fun b => b - 48)) with
  | some v => (some (.IntegerLiteral v), [])
  | none => (none, ["could not parse \"" ++ bytesToString lit ++ "\" as integer"])

/-- Decimal value of a digit-byte run (the claim's reading of an INT
literal). -/
def decimalValue (lit : List Nat) : Nat :=
  (lit.map (fun b => b - 48)).foldl (fun acc d => acc * 10 + d) 0

/-- `left.Type() == object.INTEGER_OBJ` as a predicate on the operand. -/
def isIntegerObj : Object → Bool
  | .Integer _ => true
  | _ => false

/-- `left.Type() == object.STRING_OBJ` as a predicate on the operand. -/
def isStringObj : Object → Bool
  | .String _ => true
  | _ => false

/-- C6: indexing an Array value with an Integer index returns the element
at that position when 0 ≤ i ≤ len−1 and the NULL singleton (not an
error) for every index outside that range; a negative index is
out-of-range and never wraps around. -/
theorem c6_array_index (id : Nat) (elements : List GoObj) (i : Int) :
    (0 ≤ i → i < (elements.length : Int) →
      evalIndexExpression (some (.Array id elements)) (some (.Integer i))
        = .ok (elements.getD i.toNat none)) ∧
    ((i < 0 ∨ (elements.length : Int) - 1 < i) →
      evalIndexExpression (some (.Array id elements)) (some (.Integer i))
        = .ok (some .Null)) := by
  constructor
  · intro h0 hlt
    have hcond : ¬(i < 0 ∨ (elements.length : Int) - 1 < i) := by omega
    simp [evalIndexExpression, evalArrayIndexExpression, hcond]
  · intro h
    simp [evalIndexExpression, evalArrayIndexExpression, h]

/-- Witness for C6 on the spec's own scenario `[1, 2, 3]`: index 2 gives
3, index 99 and index −1 give NULL. -/
theorem c6_array_index_witness :
    evalIndexExpression
        (some (.Array 0 [some (.Integer 1), some (.Integer 2), some (.Integer 3)]))
        (some (.Integer 2)) = .ok (some (.Integer 3)) ∧
    evalIndexExpression
        (some (.Array 0 [some (.Integer 1), some (.Integer 2), some (.Integer 3)]))
        (some (.Integer 99)) = .ok (some .Null) ∧
    evalIndexExpression
        (some (.Array 0 [some (.Integer 1), some (.Integer 2), some (.Integer 3)]))
        (some (.Integer (-1))) = .ok (some .Null) := by
  refine ⟨?_, ?_, ?_⟩
  · exact (c6_array_index 0 [some (.Integer 1), some (.Integer 2), some (.Integer 3)] 2).1
      (by norm_num) (by norm_num)
  · exact (c6_array_index 0 [some (.Integer 1), some (.Integer 2), some (.Integer 3)] 99).2
      (by norm_num)
  · exact (c6_array_index 0 [some (.Integer 1), some (.Integer 2), some (.Integer 3)] (-1)).2
      (by norm_num)

/-- C9: on two String operands the operator + concatenates, and every
other operator — == and != included, because the both-STRING case of the
switch fires before the identity-comparison cases — produces the error
`unknown operator: STRING <op> STRING`. -/
theorem c9_string_infix (operator lv rv : String) :
    evalInfixExpression operator (some (.String lv)) (some (.String rv))
      = .ok (if operator = "+" then .String (lv ++ rv)
             else .Error ("unknown operator: STRING " ++ operator ++ " STRING")) := by
  by_cases h : operator = "+"
  · simp [evalInfixExpression, evalStringInfixExpression, h]
  · simp [evalInfixExpression, evalStringInfixExpression, h]

/-- C10: for == and != on operands that are not both Integers and not
both Strings, the evaluator always returns a Boolean computed by Go
interface identity (`objIdentical`) — never a `type mismatch` error.
The whole pipeline evaluates `[1] == [1]` to false because the two array
literals are separate allocations, and
`let x = if (true) { return 5; }; x == x` to true because the let binds
the still-wrapped ReturnValue and both sides of == read back the same
allocation. -/
theorem c10_eq_identity :
    (∀ (l r : Object) (operator : String),
      operator = "==" ∨ operator = "!=" →
      ¬(isIntegerObj l = true ∧ isIntegerObj r = true) →
      ¬(isStringObj l = true ∧ isStringObj r = true) →
      evalInfixExpression operator (some l) (some r)
        = .ok (.Boolean (if operator = "==" then objIdentical l r else !objIdentical l r))) ∧
    Eval (fun ps => ps) 20 (.expr (.InfixExpression "=="
        (.ArrayLiteral [.IntegerLiteral 1]) (.ArrayLiteral [.IntegerLiteral 1]))) 0 initState
      = .ok (some (.Boolean false)) ⟨[⟨[], none⟩], 2⟩ ∧
    Eval (fun ps => ps) 20 (.program
        [.LetStatement "x" (.IfExpression (.BooleanLiteral true)
            [.ReturnStatement (.IntegerLiteral 5)] none),
         .ExpressionStatement (.InfixExpression "==" (.Identifier "x") (.Identifier "x"))])
        0 initState
      = .ok (some (.Boolean true))
          ⟨[⟨[("x", some (.ReturnValue 0 (some (.Integer 5))))], none⟩], 1⟩ := by
  refine ⟨?_, rfl, rfl⟩
  intro l r operator hop hint hstr
  rcases hop with h | h <;> subst h <;>
    cases l <;> cases r <;>
      simp_all [evalInfixExpression, goEq, isIntegerObj, isStringObj]

/-- Witness for C10: an Integer compared to a String with == is the
Boolean false (not a type-mismatch error), and two separately allocated
arrays with equal contents are != true. -/
theorem c10_eq_identity_witness :
    evalInfixExpression "==" (some (.Integer 1)) (some (.String "1"))
      = .ok (.Boolean false) ∧
    evalInfixExpression "!=" (some (.Array 0 [some (.Integer 1)]))
        (some (.Array 1 [some (.Integer 1)]))
      = .ok (.Boolean true) := by
  constructor
  · have h := c10_eq_identity.1 (.Integer 1) (.String "1") "==" (Or.inl rfl)
      (by simp [isIntegerObj, isStringObj]) (by simp [isIntegerObj, isStringObj])
    simpa [objIdentical] using h
  · have h := c10_eq_identity.1 (.Array 0 [some (.Integer 1)]) (.Array 1 [some (.Integer 1)])
      "!=" (Or.inr rfl)
      (by simp [isIntegerObj, isStringObj]) (by simp [isIntegerObj, isStringObj])
    simpa [objIdentical] using h

/-- The decimal digit loop of strconv's parseUint computes the base-10
fold when every digit is below 10. -/
theorem parseUintDigits_decimal (ds : List Nat) :
    ∀ acc, (∀ d ∈ ds, d < 10) →
      parseUintDigits 10 ds acc = some (ds.foldl (fun a d => a * 10 + d) acc) := by
  induction ds with
  | nil => intro acc _; rfl
  | cons d rest ih =>
    intro acc h
    have hd : d < 10 := h d (by simp)
    simp only [parseUintDigits, hd, if_pos, List.foldl_cons]
    exact ih _ (fun x hx => h x (by simp [hx]))

/-- C3 counterexample: the parser hands the literal to
`strconv.ParseInt(lit, 0, 64)` — base 0, not base 10 — so the INT token
`010` produces an IntegerLiteral with value eight (octal), not the
decimal value ten the claim asserts. -/
theorem c3_counterexample :
    parseIntegerLiteral (strBytes "010") = (some (.IntegerLiteral 8), []) ∧
    (some (Expr.IntegerLiteral 8) : Option Expr) ≠ some (.IntegerLiteral 10) := by
  refine ⟨rfl, ?_⟩
  intro h
  simp at h

/-- C3 (amended): an INT literal is parsed with strconv base-0 semantics:
a digit run that does not start with 0 (or is the single digit of length
one, `0` included) denotes its decimal value when below 2^63 and
otherwise fails with `could not parse "<lit>" as integer`; a literal
starting with 0 followed by more digits is read as octal, so `010`
denotes eight, `08` fails with the same error, and a failure returns a
nil expression alongside the appended error. -/
theorem c3_parseIntegerLiteral_base0 :
    (∀ lit : List Nat, lit ≠ [] → (∀ b ∈ lit, 48 ≤ b ∧ b ≤ 57) → lit.headI ≠ 48 →
      parseIntegerLiteral lit
        = (if decimalValue lit < 2 ^ 63
           then (some (.IntegerLiteral (decimalValue lit)), [])
           else (none, ["could not parse \"" ++ bytesToString lit ++ "\" as integer"]))) ∧
    parseIntegerLiteral (strBytes "010") = (some (.IntegerLiteral 8), []) ∧
    parseIntegerLiteral (strBytes "08")
      = (none, ["could not parse \"08\" as integer"]) ∧
    parseIntegerLiteral (strBytes "0") = (some (.IntegerLiteral 0), []) := by
  refine ⟨?_, rfl, rfl, rfl⟩
  intro lit hne hdig hhead
  match lit, hne with
  | b :: rest, _ =>
    have hb : 48 ≤ b ∧ b ≤ 57 := hdig b (by simp)
    have hb0 : b - 48 ≠ 0 := by
      simp only [List.headI] at hhead
      omega
    have hall : ∀ d ∈ (b :: rest).map (fun x => x - 48), d < 10 := by
      intro d hd
      simp only [List.mem_map] at hd
      obtain ⟨x, hx, rfl⟩ := hd
      have := hdig x hx
      omega
    have hdec := parseUintDigits_decimal ((b :: rest).map (fun x => x - 48)) 0 hall
    simp only [parseIntegerLiteral, parseIntBase0, List.map_cons]
    rw [if_neg (by simp [hb0])]
    simp only [List.map_cons] at hdec
    rw [hdec]
    have hfold : ((b - 48) :: rest.map (fun x => x - 48)).foldl (fun a d => a * 10 + d) 0
        = decimalValue (b :: rest) := by
      simp [decimalValue]
    simp only [hfold]
    split_ifs <;> rfl

/-- Witness for C3 on the literal 123: no leading zero, decimal value. -/
theorem c3_parseIntegerLiteral_base0_witness :
    parseIntegerLiteral (strBytes "123") = (some (.IntegerLiteral 123), []) := by
  have h := c3_parseIntegerLiteral_base0.1 (strBytes "123") (by decide) (by decide) (by decide)
  simpa [strBytes, decimalValue, bytesToString] using h

/-- C4 counterexample: evaluating the Let statement `let x = 5;` returns
the Go nil interface value (`Res.ok none`) — the `case *ast.LetStatement`
arm of Eval's switch falls through without returning an object — so Eval
produces neither a proper runtime value nor an Error value there. -/
theorem c4_counterexample :
    Eval (fun ps => ps) 10 (.stmt (.LetStatement "x" (.IntegerLiteral 5))) 0 initState
      = .ok none ⟨[⟨[("x", some (.Integer 5))], none⟩], 0⟩ := by rfl

/-- C4 (amended): evaluation of every handled node yields a result, but a
Let statement whose value evaluates to a non-error object performs the
binding and returns the Go nil value (no object at all) rather than a
proper runtime value or an Error. -/
theorem c4_let_yields_nil (ord : List (Expr × Expr) → List (Expr × Expr))
    (fuel : Nat) (name : String) (e : Expr) (env : Nat)
    (st st1 : EvalState) (v : Object)
    (h : Eval ord fuel (.expr e) env st = .ok (some v) st1)
    (hv : isError (some v) = false) :
    Eval ord (fuel + 1) (.stmt (.LetStatement name e)) env st
      = .ok none (envSet st1 env name (some v)) := by
  simp [Eval, evalStep, h, hv]

/-- Witness for C4: `let y = 7;` binds y and yields nil. -/
theorem c4_let_yields_nil_witness :
    Eval (fun ps => ps) 2 (.stmt (.LetStatement "y" (.IntegerLiteral 7))) 0 initState
      = .ok none (envSet initState 0 "y" (some (.Integer 7))) :=
  c4_let_yields_nil (fun ps => ps) 1 "y" (.IntegerLiteral 7) 0 initState initState
    (.Integer 7) rfl rfl

/-- A Go map write is visible to a read of the same key. -/
theorem storeGet_storeSet_same (S : List (String × GoObj)) (name : String) (v : GoObj) :
    storeGet (storeSet S name v) name = some v := by
  induction S with
  | nil => simp [storeSet, storeGet]
  | cons kv rest ih =>
    obtain ⟨k, v0⟩ := kv
    by_cases h : k = name
    · simp [storeSet, storeGet, h]
    · simp [storeSet, storeGet, h, ih]

/-- A Go map write does not change the other keys. -/
theorem storeGet_storeSet_other (S : List (String × GoObj)) (name other : String)
    (v : GoObj) (h : ¬name = other) :
    storeGet (storeSet S name v) other = storeGet S other := by
  induction S with
  | nil => simp [storeSet, storeGet, h]
  | cons kv rest ih =>
    obtain ⟨k, v0⟩ := kv
    by_cases hk : k = name
    · subst hk
      simp [storeSet, storeGet, h]
    · simp [storeSet, storeGet, hk, ih]

/-- Setting the last frame of the heap. -/
theorem set_concat_length (frames : List Frame) (a b : Frame) :
    (frames ++ [a]).set frames.length b = frames ++ [b] := by
  induction frames with
  | nil => rfl
  | cons f rest ih => simp [List.set, ih]

/-- Reading the last frame of the heap. -/
theorem get_concat_length (frames : List Frame) (a : Frame) :
    (frames ++ [a]).get? frames.length = some a := by
  induction frames with
  | nil => rfl
  | cons f rest ih => exact ih

/-- One unfolding of the binding loop when the argument exists. -/
theorem bindParams_cons (p : String) (ps : List String) (i : Nat) (args : List GoObj)
    (envIdx : Nat) (st : EvalState) (a : GoObj) (h : args.get? i = some a) :
    bindParams (p :: ps) i args envIdx st
      = bindParams ps (i + 1) args envIdx (envSet st envIdx p a) := by
  simp only [bindParams, List.get?_eq_getElem?] at h ⊢
  rw [h]

/-- The parameter-binding loop of `extendFunctionEnv` on the freshly
pushed frame: with enough arguments it succeeds, binding the i-th
parameter (counting from the loop's start index) to the i-th argument and
touching no other name; names it does not mention keep their store
entries, so extra arguments are simply dropped. -/
theorem bindParams_last (ps : List String) :
    ∀ (i : Nat) (args : List GoObj) (frames : List Frame) (S : List (String × GoObj))
      (out : Option Nat) (nid : Nat),
      ps.Nodup → i + ps.length ≤ args.length →
      ∃ S', bindParams ps i args frames.length ⟨frames ++ [⟨S, out⟩], nid⟩
          = .ok ⟨frames ++ [⟨S', out⟩], nid⟩ ∧
        (∀ name, name ∉ ps → storeGet S' name = storeGet S name) ∧
        (∀ j (hj : j < ps.length),
          storeGet S' (ps.get ⟨j, hj⟩) = args.get? (i + j)) := by
  induction ps with
  | nil =>
    intro i args frames S out nid _ _
    exact ⟨S, rfl, fun _ _ => rfl, fun j hj => absurd hj (by simp)⟩
  | cons p ps' ih =>
    intro i args frames S out nid hnd hlen
    have hi : i < args.length := by simp at hlen; omega
    have hget : args.get? i = some (args.get ⟨i, hi⟩) := List.get?_eq_get hi
    have hnd' : ps'.Nodup := (List.nodup_cons.mp hnd).2
    have hp : p ∉ ps' := (List.nodup_cons.mp hnd).1
    have henv : envSet ⟨frames ++ [⟨S, out⟩], nid⟩ frames.length p (args.get ⟨i, hi⟩)
        = ⟨frames ++ [⟨storeSet S p (args.get ⟨i, hi⟩), out⟩], nid⟩ := by
      simp [envSet, get_concat_length, set_concat_length]
    obtain ⟨S', hrun, hother, hbound⟩ :=
      ih (i + 1) args frames (storeSet S p (args.get ⟨i, hi⟩)) out nid hnd'
        (by simp at hlen ⊢; omega)
    refine ⟨S', ?_, ?_, ?_⟩
    · rw [bindParams_cons p ps' i args frames.length _ _ hget, henv]
      exact hrun
    · intro name hname
      simp only [List.mem_cons, not_or] at hname
      rw [hother name hname.2,
        storeGet_storeSet_other _ _ _ _ (fun hh => hname.1 hh.symm)]
    · intro j hj
      match j with
      | 0 =>
        rw [show ((p :: ps').get ⟨0, hj⟩) = p from rfl, hother p hp,
          storeGet_storeSet_same]
        exact hget.symm
      | j' + 1 =>
        have hj' : j' < ps'.length := by simpa using hj
        have := hbound j' hj'
        rw [show ((p :: ps').get ⟨j' + 1, hj⟩) = ps'.get ⟨j', hj'⟩ from rfl, this]
        congr 1
        omega

/-- The binding loop panics (`args[paramIdx]` out of range) whenever the
parameters outrun the arguments. -/
theorem bindParams_short (ps : List String) :
    ∀ (i : Nat) (args : List GoObj) (envIdx : Nat) (st : EvalState),
      ps ≠ [] → args.length < i + ps.length →
      bindParams ps i args envIdx st = .error indexOutOfRange := by
  induction ps with
  | nil => intro _ _ _ _ h _; exact absurd rfl h
  | cons p ps' ih =>
    intro i args envIdx st _ hlen
    by_cases hi : args.length ≤ i
    · have hnone : args.get? i = none := List.get?_eq_none.mpr hi
      simp only [bindParams, List.get?_eq_getElem?] at hnone ⊢
      rw [hnone]
    · have hsome : args.get? i = some (args.get ⟨i, by omega⟩) :=
        List.get?_eq_get (by omega)
      rw [bindParams_cons p ps' i args envIdx st _ hsome]
      rcases ps' with _ | ⟨q, qs⟩
      · exfalso; simp at hlen; omega
      · exact ih (i + 1) args envIdx _ (by simp) (by simp at hlen ⊢; omega)

/-- C1 counterexample: calling a one-parameter function with no arguments
makes `extendFunctionEnv` read `args[0]` of an empty argument slice — a
runtime panic that aborts evaluation — instead of leaving `x` unbound and
reporting `identifier not found: x` when the body reads it. -/
theorem c1_counterexample :
    Eval (fun ps => ps) 20 (.program [.ExpressionStatement (.CallExpression
        (.FunctionLiteral ["x"] [.ExpressionStatement (.Identifier "x")]) [])]) 0 initState
      = .panic indexOutOfRange := by rfl

/-- C1 (amended): applying a user-defined Function binds each parameter
to the corresponding argument positionally and ignores extra arguments,
but when there are FEWER arguments than parameters the binding loop
itself panics with an index-out-of-range runtime error, aborting
evaluation — the missing parameters are never left unbound. -/
theorem c1_parameter_binding (parameters : List String) (fnEnv : Nat) (args : List GoObj)
    (st : EvalState) :
    (args.length < parameters.length →
      extendFunctionEnv parameters fnEnv args st = .error indexOutOfRange ∧
      (∀ (evalBody : List Stmt → Nat → EvalState → Res) (id : Nat) (body : List Stmt),
        applyFunction evalBody (some (.Function id parameters body fnEnv)) args st
          = .panic indexOutOfRange)) ∧
    (parameters.length ≤ args.length → parameters.Nodup →
      ∃ store,
        extendFunctionEnv parameters fnEnv args st
          = .ok (st.frames.length, ⟨st.frames ++ [⟨store, some fnEnv⟩], st.nextId⟩) ∧
        (∀ j (hj : j < parameters.length),
          storeGet store (parameters.get ⟨j, hj⟩) = args.get? j) ∧
        (∀ name, name ∉ parameters → storeGet store name = none)) := by
  obtain ⟨frames, nid⟩ := st
  constructor
  · intro hshort
    have hne : parameters ≠ [] := by
      intro h; subst h; simp at hshort
    have h := bindParams_short parameters 0 args frames.length
      ⟨frames ++ [⟨[], some fnEnv⟩], nid⟩ hne (by omega)
    constructor
    · simp [extendFunctionEnv, newEnclosedEnvironment, h]
    · intro evalBody id body
      simp [applyFunction, extendFunctionEnv, newEnclosedEnvironment, h]
  · intro hlen hnd
    obtain ⟨S', hrun, hother, hbound⟩ :=
      bindParams_last parameters 0 args frames [] (some fnEnv) nid hnd (by omega)
    refine ⟨S', ?_, ?_, ?_⟩
    · simp [extendFunctionEnv, newEnclosedEnvironment, hrun]
    · intro j hj
      simpa using hbound j hj
    · intro name hname
      simpa [storeGet] using hother name hname

/-- Witness for C1: with exactly enough arguments the binding succeeds
(`fn(x, y)` applied to two values binds both and nothing else), and with
one argument missing the panic branch fires. -/
theorem c1_parameter_binding_witness :
    (∃ store,
      extendFunctionEnv ["x", "y"] 0 [some (.Integer 1), some (.Integer 2)] initState
        = .ok (1, ⟨[⟨[], none⟩, ⟨store, some 0⟩], 0⟩) ∧
      storeGet store "x" = some (some (.Integer 1)) ∧
      storeGet store "y" = some (some (.Integer 2)) ∧
      storeGet store "z" = none) ∧
    extendFunctionEnv ["x", "y"] 0 [some (.Integer 1)] initState
      = .error indexOutOfRange := by
  constructor
  · obtain ⟨store, hok, hbound, hother⟩ :=
      (c1_parameter_binding ["x", "y"] 0 [some (.Integer 1), some (.Integer 2)] initState).2
        (by norm_num) (by decide)
    refine ⟨store, hok, ?_, ?_, hother "z" (by decide)⟩
    · simpa using hbound 0 (by norm_num)
    · simpa using hbound 1 (by norm_num)
  · exact ((c1_parameter_binding ["x", "y"] 0 [some (.Integer 1)] initState).1
      (by norm_num)).1

/-- A hash literal whose two pairs collide on the same HashKey (the
boolean true), written in source order: `{true: 1, true: 2}`.  The Go
parser keeps both pairs (the map is keyed by the two distinct key
expression pointers). -/
def duplicateKeyPairs : List (Expr × Expr) :=
  [(.BooleanLiteral true, .IntegerLiteral 1), (.BooleanLiteral true, .IntegerLiteral 2)]

/-- C2 counterexample: `evalHashLiteral` iterates the Go map
`node.Pairs`, whose order is unspecified; under the admissible iteration
order that visits the pairs of `{true: 1, true: 2}` in reverse, the
stored value for the key is 1 — not the value 2 of the pair written later
in the source, as the claim asserts for every evaluation. -/
theorem c2_counterexample :
    Eval List.reverse 20 (.expr (.HashLiteral duplicateKeyPairs)) 0 initState
      = .ok (some (.Hash 0 [(⟨"BOOLEAN", 1⟩, .Boolean true, some (.Integer 1))]))
          ⟨[⟨[], none⟩], 1⟩ ∧
    (some (Object.Integer 1) : GoObj) ≠ some (.Integer 2) := by
  refine ⟨rfl, ?_⟩
  intro h
  simp at h

/-- C2 (amended): hash-literal pairs are evaluated key-then-value in the
unspecified iteration order of the map holding them; within whatever
order the iteration takes, a later-processed pair with the same HashKey
overwrites an earlier one (a Go map write replaces the stored pair), so
the source-order last-wins result is only one admissible outcome: under
the source order `{true: 1, true: 2}` stores 2, under the reversed order
it stores 1. -/
theorem c2_hash_last_iterated_wins :
    (∀ (pairs : List (HashKey × Object × GoObj)) (key : HashKey) (k : Object) (v : GoObj)
        (key' : HashKey),
      hashLookup (hashInsert pairs key k v) key'
        = if key' = key then some (k, v) else hashLookup pairs key') ∧
    Eval (fun ps => ps) 20 (.expr (.HashLiteral duplicateKeyPairs)) 0 initState
      = .ok (some (.Hash 0 [(⟨"BOOLEAN", 1⟩, .Boolean true, some (.Integer 2))]))
          ⟨[⟨[], none⟩], 1⟩ ∧
    Eval List.reverse 20 (.expr (.HashLiteral duplicateKeyPairs)) 0 initState
      = .ok (some (.Hash 0 [(⟨"BOOLEAN", 1⟩, .Boolean true, some (.Integer 1))]))
          ⟨[⟨[], none⟩], 1⟩ := by
  refine ⟨?_, rfl, rfl⟩
  intro pairs key k v key'
  induction pairs with
  | nil =>
    by_cases h : key' = key
    · subst h; simp [hashInsert, hashLookup]
    · simp [hashInsert, hashLookup, h, Ne.symm h]
  | cons entry rest ih =>
    obtain ⟨hk, k0, v0⟩ := entry
    by_cases h1 : hk = key
    · subst h1
      by_cases h2 : key' = hk
      · subst h2; simp [hashInsert, hashLookup]
      · simp [hashInsert, hashLookup, h2, Ne.symm h2]
    · by_cases h2 : hk = key'
      · subst h2
        simp [hashInsert, hashLookup, h1, Ne.symm h1]
      · simp [hashInsert, hashLookup, h1, h2, ih]

/-- The nested-return program of the spec:
`if (10 > 1) { if (10 > 1) { return 10; } return 1; }`. -/
def nestedReturnProgram : Node :=
  .program [.ExpressionStatement (.IfExpression
    (.InfixExpression ">" (.IntegerLiteral 10) (.IntegerLiteral 1))
    [.ExpressionStatement (.IfExpression
        (.InfixExpression ">" (.IntegerLiteral 10) (.IntegerLiteral 1))
        [.ReturnStatement (.IntegerLiteral 10)] none),
     .ReturnStatement (.IntegerLiteral 1)]
    none)]

/-- C5: a block whose statement evaluates to ReturnValue(v) returns it
still wrapped, the program loop unwraps it to v and stops,
`unwrapReturnValue` (the unwrap step of applyFunction) strips exactly one
level, the spec's nested-return program evaluates to the integer 10, and
a function call whose body returns 10 yields the unwrapped 10. -/
theorem c5_return_wrapping :
    (∀ (evalS : Stmt → Nat → EvalState → Res) (s : Stmt) (rest : List Stmt)
        (r0 : GoObj) (env : Nat) (st st1 : EvalState) (rid : Nat) (v : GoObj),
      evalS s env st = .ok (some (.ReturnValue rid v)) st1 →
      evalBlockStatementGo evalS (s :: rest) r0 env st
          = .ok (some (.ReturnValue rid v)) st1 ∧
      evalProgramGo evalS (s :: rest) r0 env st = .ok v st1) ∧
    (∀ (rid : Nat) (v : GoObj), unwrapReturnValue (some (.ReturnValue rid v)) = v) ∧
    Eval (fun ps => ps) 20 nestedReturnProgram 0 initState
      = .ok (some (.Integer 10)) ⟨[⟨[], none⟩], 1⟩ ∧
    Eval (fun ps => ps) 20 (.expr (.CallExpression
        (.FunctionLiteral [] [.ReturnStatement (.IntegerLiteral 10)]) [])) 0 initState
      = .ok (some (.Integer 10)) ⟨[⟨[], none⟩, ⟨[], some 0⟩], 2⟩ := by
  refine ⟨?_, fun _ _ => rfl, rfl, rfl⟩
  intro evalS s rest r0 env st st1 rid v h
  exact ⟨by simp [evalBlockStatementGo, h], by simp [evalProgramGo, h]⟩

/-- Witness for C5: a block and a program whose first statement is
`return 3` return the wrapped and the unwrapped value respectively. -/
theorem c5_return_wrapping_witness :
    evalBlockStatementGo (fun s env st => Eval (fun ps => ps) 5 (.stmt s) env st)
        [.ReturnStatement (.IntegerLiteral 3)] none 0 initState
      = .ok (some (.ReturnValue 0 (some (.Integer 3)))) ⟨[⟨[], none⟩], 1⟩ ∧
    evalProgramGo (fun s env st => Eval (fun ps => ps) 5 (.stmt s) env st)
        [.ReturnStatement (.IntegerLiteral 3)] none 0 initState
      = .ok (some (.Integer 3)) ⟨[⟨[], none⟩], 1⟩ :=
  c5_return_wrapping.1 (fun s env st => Eval (fun ps => ps) 5 (.stmt s) env st)
    (.ReturnStatement (.IntegerLiteral 3)) [] none 0 initState ⟨[⟨[], none⟩], 1⟩
    0 (some (.Integer 3)) rfl

/-- Well-formedness of the frame heap: every outer pointer goes to a
frame with a strictly smaller index.  Every state the evaluator builds
satisfies this, because `NewEnclosedEnvironment` appends a fresh frame
pointing at an existing one. -/
abbrev WFState (st : EvalState) : Prop :=
  ∀ i f, st.frames.get? i = some f → ∀ o, f.outer = some o → o < i

/-- On a well-formed heap the outcome of the `Environment.Get` chain walk
does not depend on the fuel, as long as the fuel exceeds the starting
index. -/
theorem envGetAux_fuel (st : EvalState) (hwf : WFState st) :
    ∀ idx name k₁ k₂, idx < k₁ → idx < k₂ →
      envGetAux k₁ st idx name = envGetAux k₂ st idx name := by
  intro idx
  induction idx using Nat.strong_induction_on with
  | _ idx ih =>
    intro name k₁ k₂ h₁ h₂
    obtain ⟨a, rfl⟩ : ∃ a, k₁ = a + 1 := ⟨k₁ - 1, by omega⟩
    obtain ⟨b, rfl⟩ : ∃ b, k₂ = b + 1 := ⟨k₂ - 1, by omega⟩
    cases hf : st.frames.get? idx with
    | none => simp only [envGetAux, hf]
    | some f =>
      cases hs : storeGet f.store name with
      | some v => simp only [envGetAux, hf, hs]
      | none =>
        cases ho : f.outer with
        | none => simp only [envGetAux, hf, hs, ho]
        | some o =>
          have holt : o < idx := hwf idx f hf o ho
          simp only [envGetAux, hf, hs, ho]
          exact ih o holt name a b (by omega) (by omega)

/-- C7: evaluating an identifier searches the environment chain from the
innermost frame outward — a hit in the innermost frame is returned as is
(so a user binding always shadows a builtin of the same name), a miss in
a frame continues in its outer frame — and only when the whole chain
misses is the builtins table consulted; when that also misses the result
is the error `identifier not found: <name>`. -/
theorem c7_identifier_lookup (st : EvalState) (env : Nat) (name : String) :
    (∀ f v, st.frames.get? env = some f → storeGet f.store name = some v →
      evalIdentifier st env name = v) ∧
    (WFState st → ∀ f o, st.frames.get? env = some f → storeGet f.store name = none →
      f.outer = some o → envGet st env name = envGet st o name) ∧
    (envGet st env name = none → ∀ b, builtins name = some b →
      evalIdentifier st env name = some b) ∧
    (envGet st env name = none → builtins name = none →
      evalIdentifier st env name
        = some (.Error ("identifier not found: " ++ name))) := by
  refine ⟨?_, ?_, ?_, ?_⟩
  · intro f v hf hv
    have hlt : env < st.frames.length := (List.get?_eq_some.mp hf).1
    obtain ⟨a, ha⟩ : ∃ a, st.frames.length = a + 1 := ⟨st.frames.length - 1, by omega⟩
    simp only [evalIdentifier, envGet, ha, envGetAux, hf, hv]
  · intro hwf f o hf hs ho
    have hlt : env < st.frames.length := (List.get?_eq_some.mp hf).1
    have holt : o < env := hwf env f hf o ho
    obtain ⟨a, ha⟩ : ∃ a, st.frames.length = a + 1 := ⟨st.frames.length - 1, by omega⟩
    have hstep : envGet st env name = envGetAux a st o name := by
      simp only [envGet, ha, envGetAux, hf, hs, ho]
    rw [hstep, envGet, envGetAux_fuel st hwf o name a st.frames.length
      (by omega) (by omega)]
  · intro hmiss b hb
    simp only [evalIdentifier, hmiss, hb]
  · intro hmiss hb
    simp only [evalIdentifier, hmiss, hb]

/-- A two-frame heap: the root binds x, the inner frame binds len (the
name of a builtin) and encloses the root. -/
def twoFrameState : EvalState :=
  ⟨[⟨[("x", some (.Integer 1))], none⟩,
    ⟨[("len", some (.String "inner"))], some 0⟩], 0⟩

/-- Witness for C7 on `twoFrameState`: the user binding shadows the
builtin `len`, a miss in the inner frame walks outward to find `x`, a
full miss finds the builtin `first`, and an unknown name errors. -/
theorem c7_identifier_lookup_witness :
    evalIdentifier twoFrameState 1 "len" = some (.String "inner") ∧
    envGet twoFrameState 1 "x" = envGet twoFrameState 0 "x" ∧
    evalIdentifier twoFrameState 1 "first" = some (.Builtin "first") ∧
    evalIdentifier twoFrameState 1 "foobar"
      = some (.Error "identifier not found: foobar") := by
  have hwf : WFState twoFrameState := by
    intro i f hf o ho
    match i with
    | 0 =>
      simp only [twoFrameState, List.get?] at hf
      cases hf
      simp at ho
    | 1 =>
      simp only [twoFrameState, List.get?] at hf
      cases hf
      simp at ho
      omega
    | n + 2 =>
      simp only [twoFrameState, List.get?] at hf
      cases hf
  refine ⟨?_, ?_, ?_, ?_⟩
  · exact (c7_identifier_lookup twoFrameState 1 "len").1 _ (some (.String "inner")) rfl rfl
  · exact (c7_identifier_lookup twoFrameState 1 "x").2.1 hwf
      ⟨[("len", some (.String "inner"))], some 0⟩ 0 rfl rfl rfl
  · exact (c7_identifier_lookup twoFrameState 1 "first").2.2.1 rfl _ rfl
  · exact (c7_identifier_lookup twoFrameState 1 "foobar").2.2.2 rfl rfl

/-- The lexer invariant: `readPosition` is one past `position`, and past
the end of input the current byte is the 0 sentinel.  `readChar`
establishes it from any state, so every reachable lexer state satisfies
it. -/
abbrev WFLexer (l : Lexer) : Prop :=
  l.readPosition = l.position + 1 ∧ (l.input.length ≤ l.position → l.ch = 0)

/-- `readChar` establishes the invariant unconditionally. -/
theorem wf_readChar (l : Lexer) : WFLexer (readChar l) := by
  refine ⟨rfl, fun h => ?_⟩
  simp only [readChar] at h ⊢
  rw [if_pos h]

/-- Under the invariant, `readChar` advances `position` by one. -/
theorem readChar_position (l : Lexer) (h : WFLexer l) :
    (readChar l).position = l.position + 1 := h.1

/-- `readChar` never touches the input. -/
theorem readChar_input (l : Lexer) : (readChar l).input = l.input := rfl

/-- The whitespace loop preserves the invariant and the input and never
moves `position` backwards. -/
theorem skipWhitespaceAux_facts (fuel : Nat) :
    ∀ l, WFLexer l → WFLexer (skipWhitespaceAux fuel l) ∧
      l.position ≤ (skipWhitespaceAux fuel l).position ∧
      (skipWhitespaceAux fuel l).input = l.input := by
  induction fuel with
  | zero => exact fun l h => ⟨h, Nat.le_refl _, rfl⟩
  | succ k ih =>
    intro l h
    by_cases hws : isWhitespace l.ch = true
    · obtain ⟨h1, h2, h3⟩ := ih (readChar l) (wf_readChar l)
      simp only [skipWhitespaceAux, hws, if_true]
      refine ⟨h1, ?_, by rw [h3, readChar_input]⟩
      rw [readChar_position l h] at h2
      omega
    · simp only [skipWhitespaceAux, hws, if_false]
      exact ⟨h, Nat.le_refl _, rfl⟩

/-- The identifier/number loops preserve the invariant and the input and
never move `position` backwards. -/
theorem readRunAux_facts (p : Nat → Bool) (fuel : Nat) :
    ∀ l, WFLexer l → WFLexer (readRunAux p fuel l) ∧
      l.position ≤ (readRunAux p fuel l).position ∧
      (readRunAux p fuel l).input = l.input := by
  induction fuel with
  | zero => exact fun l h => ⟨h, Nat.le_refl _, rfl⟩
  | succ k ih =>
    intro l h
    by_cases hp : p l.ch = true
    · obtain ⟨h1, h2, h3⟩ := ih (readChar l) (wf_readChar l)
      simp only [readRunAux, hp, if_true]
      refine ⟨h1, ?_, by rw [h3, readChar_input]⟩
      rw [readChar_position l h] at h2
      omega
    · simp only [readRunAux, hp, if_false]
      exact ⟨h, Nat.le_refl _, rfl⟩

/-- When the loop guard holds initially, the identifier/number loops make
strict progress. -/
theorem readRunAux_strict (p : Nat → Bool) (k : Nat) (l : Lexer)
    (h : WFLexer l) (hp : p l.ch = true) :
    l.position + 1 ≤ (readRunAux p (k + 1) l).position := by
  have hfacts := (readRunAux_facts p k (readChar l) (wf_readChar l)).2.1
  simp only [readRunAux, hp, if_true]
  rw [readChar_position l h] at hfacts
  exact hfacts

/-- One unfolding of the string loop. -/
theorem readStringAux_succ (k : Nat) (l : Lexer) :
    readStringAux (k + 1) l
      = (if (readChar l).ch = 34 ∨ (readChar l).ch = 0 then readChar l
         else readStringAux k (readChar l)) := rfl

/-- The string loop (which always reads at least one byte) preserves the
invariant and the input and makes strict progress, given nonzero fuel. -/
theorem readStringAux_facts (k : Nat) :
    ∀ l, WFLexer l → WFLexer (readStringAux (k + 1) l) ∧
      l.position + 1 ≤ (readStringAux (k + 1) l).position ∧
      (readStringAux (k + 1) l).input = l.input := by
  induction k with
  | zero =>
    intro l h
    rw [readStringAux_succ]
    by_cases hstop : (readChar l).ch = 34 ∨ (readChar l).ch = 0
    · rw [if_pos hstop]
      exact ⟨wf_readChar l, Nat.le_of_eq (readChar_position l h).symm, rfl⟩
    · rw [if_neg hstop]
      exact ⟨wf_readChar l, Nat.le_of_eq (readChar_position l h).symm, rfl⟩
  | succ k ih =>
    intro l h
    rw [readStringAux_succ]
    by_cases hstop : (readChar l).ch = 34 ∨ (readChar l).ch = 0
    · rw [if_pos hstop]
      exact ⟨wf_readChar l, Nat.le_of_eq (readChar_position l h).symm, rfl⟩
    · rw [if_neg hstop]
      obtain ⟨h1, h2, h3⟩ := ih (readChar l) (wf_readChar l)
      refine ⟨h1, ?_, by rw [h3, readChar_input]⟩
      rw [readChar_position l h] at h2
      omega

set_option maxHeartbeats 1000000 in
/-- The switch of `NextToken` preserves the invariant and the input and
always advances `position`: every branch performs at least one
`readChar`. -/
theorem nextTokenSwitch_state (l1 : Lexer) (h : WFLexer l1) :
    WFLexer (nextTokenSwitch l1).2 ∧
      l1.position + 1 ≤ (nextTokenSwitch l1).2.position ∧
      (nextTokenSwitch l1).2.input = l1.input := by
  have hsimple : WFLexer (readChar l1) ∧
      l1.position + 1 ≤ (readChar l1).position ∧ (readChar l1).input = l1.input :=
    ⟨wf_readChar _, Nat.le_of_eq (readChar_position _ h).symm, rfl⟩
  have hdouble : WFLexer (readChar (readChar l1)) ∧
      l1.position + 1 ≤ (readChar (readChar l1)).position ∧
      (readChar (readChar l1)).input = l1.input :=
    ⟨wf_readChar _, by
      rw [readChar_position _ (wf_readChar _), readChar_position _ h]; omega, rfl⟩
  unfold nextTokenSwitch
  by_cases h1 : l1.ch = 61
  · rw [if_pos h1]
    by_cases hp1 : peekChar l1 = 61
    · rw [if_pos hp1]; exact hdouble
    · rw [if_neg hp1]; exact hsimple
  rw [if_neg h1]
  by_cases h2 : l1.ch = 43
  · rw [if_pos h2]; exact hsimple
  rw [if_neg h2]
  by_cases h3 : l1.ch = 45
  · rw [if_pos h3]; exact hsimple
  rw [if_neg h3]
  by_cases h4 : l1.ch = 33
  · rw [if_pos h4]
    by_cases hp2 : peekChar l1 = 61
    · rw [if_pos hp2]; exact hdouble
    · rw [if_neg hp2]; exact hsimple
  rw [if_neg h4]
  by_cases h5 : l1.ch = 47
  · rw [if_pos h5]; exact hsimple
  rw [if_neg h5]
  by_cases h6 : l1.ch = 42
  · rw [if_pos h6]; exact hsimple
  rw [if_neg h6]
  by_cases h7 : l1.ch = 60
  · rw [if_pos h7]; exact hsimple
  rw [if_neg h7]
  by_cases h8 : l1.ch = 62
  · rw [if_pos h8]; exact hsimple
  rw [if_neg h8]
  by_cases h9 : l1.ch = 59
  · rw [if_pos h9]; exact hsimple
  rw [if_neg h9]
  by_cases h10 : l1.ch = 44
  · rw [if_pos h10]; exact hsimple
  rw [if_neg h10]
  by_cases h11 : l1.ch = 123
  · rw [if_pos h11]; exact hsimple
  rw [if_neg h11]
  by_cases h12 : l1.ch = 125
  · rw [if_pos h12]; exact hsimple
  rw [if_neg h12]
  by_cases h13 : l1.ch = 40
  · rw [if_pos h13]; exact hsimple
  rw [if_neg h13]
  by_cases h14 : l1.ch = 41
  · rw [if_pos h14]; exact hsimple
  rw [if_neg h14]
  by_cases h15 : l1.ch = 34
  · rw [if_pos h15]
    obtain ⟨g1, g2, g3⟩ := readStringAux_facts (l1.input.length + 1) l1 h
    refine ⟨wf_readChar _, ?_, ?_⟩
    · show l1.position + 1 ≤ (readChar (readStringAux (l1.input.length + 1 + 1) l1)).position
      rw [readChar_position _ g1]; omega
    · show (readChar (readStringAux (l1.input.length + 1 + 1) l1)).input = l1.input
      rw [readChar_input]; exact g3
  rw [if_neg h15]
  by_cases h16 : l1.ch = 91
  · rw [if_pos h16]; exact hsimple
  rw [if_neg h16]
  by_cases h17 : l1.ch = 93
  · rw [if_pos h17]; exact hsimple
  rw [if_neg h17]
  by_cases h18 : l1.ch = 58
  · rw [if_pos h18]; exact hsimple
  rw [if_neg h18]
  by_cases h19 : l1.ch = 0
  · rw [if_pos h19]; exact hsimple
  rw [if_neg h19]
  by_cases h20 : isLetter l1.ch = true
  · rw [if_pos h20]
    exact ⟨(readRunAux_facts isLetter (l1.input.length + 2) l1 h).1,
      readRunAux_strict isLetter (l1.input.length + 1) l1 h h20,
      (readRunAux_facts isLetter (l1.input.length + 2) l1 h).2.2⟩
  rw [if_neg h20]
  by_cases h21 : isDigit l1.ch = true
  · rw [if_pos h21]
    exact ⟨(readRunAux_facts isDigit (l1.input.length + 2) l1 h).1,
      readRunAux_strict isDigit (l1.input.length + 1) l1 h h21,
      (readRunAux_facts isDigit (l1.input.length + 2) l1 h).2.2⟩
  rw [if_neg h21]
  exact hsimple

/-- `NextToken` preserves the invariant and the input and strictly
advances `position`. -/
theorem nextToken_state (l : Lexer) (h : WFLexer l) :
    WFLexer (NextToken l).2 ∧ l.position + 1 ≤ (NextToken l).2.position ∧
      (NextToken l).2.input = l.input := by
  obtain ⟨h1, h2, h3⟩ := skipWhitespaceAux_facts (l.input.length + 2) l h
  obtain ⟨g1, g2, g3⟩ := nextTokenSwitch_state (skipWhitespace l) h1
  unfold NextToken
  refine ⟨g1, ?_, by rw [g3]; exact h3⟩
  have : l.position ≤ (skipWhitespace l).position := h2
  omega

/-- A lexer whose current byte is not whitespace is unchanged by the
whitespace skip. -/
theorem skipWhitespace_id (l : Lexer) (h : isWhitespace l.ch = false) :
    skipWhitespace l = l := by
  show skipWhitespaceAux (l.input.length + 2) l = l
  simp [skipWhitespaceAux, h]

/-- With the 0 sentinel as current byte, the switch emits the EOF token. -/
theorem nextTokenSwitch_eof (l1 : Lexer) (hch : l1.ch = 0) :
    (nextTokenSwitch l1).1 = ⟨.EOF, []⟩ := by
  unfold nextTokenSwitch
  simp [hch, isLetter, isDigit]

/-- Past the end of the input `NextToken` returns the EOF token. -/
theorem nextToken_eof (l : Lexer) (h : WFLexer l) (hend : l.input.length ≤ l.position) :
    (NextToken l).1 = ⟨.EOF, []⟩ := by
  have hch : l.ch = 0 := h.2 hend
  have hws : isWhitespace l.ch = false := by rw [hch]; rfl
  unfold NextToken
  rw [skipWhitespace_id l hws, nextTokenSwitch_eof l hch]

/-- Along the token stream the invariant holds, the input is fixed, and
the position after n calls is at least n. -/
theorem lexState_facts (input : List Nat) :
    ∀ n, WFLexer (lexState input n) ∧ (lexState input n).input = input ∧
      n ≤ (lexState input n).position := by
  intro n
  induction n with
  | zero => exact ⟨wf_readChar _, rfl, Nat.zero_le _⟩
  | succ k ih =>
    obtain ⟨h1, h2, h3⟩ := ih
    obtain ⟨g1, g2, g3⟩ := nextToken_state _ h1
    refine ⟨g1, ?_, ?_⟩
    · show (NextToken (lexState input k)).2.input = input
      rw [g3, h2]
    · show k + 1 ≤ (NextToken (lexState input k)).2.position
      omega

/-- C8 counterexample: an input containing a NUL byte (here `"\x00a"` as
bytes) makes `NextToken` emit an EOF token while input remains — the 0
sentinel of `readChar` is indistinguishable from end of input — and the
very next call returns an IDENT token, so EOF is not persistent after its
first occurrence. -/
theorem c8_counterexample :
    (tokenAt [0, 97] 0).type = .EOF ∧
    (tokenAt [0, 97] 1).type = .IDENT ∧
    TokenType.IDENT ≠ TokenType.EOF := by
  exact ⟨rfl, rfl, by decide⟩

/-- C8 (amended): for every input, from the input.length-th call onwards
`NextToken` yields EOF forever — the lexer position grows by at least one
per call, and past the end of input every call returns EOF — so an EOF is
eventually reached and is idempotent at end of input; but an EOF token
emitted for an embedded NUL byte before the end is not persistent. -/
theorem c8_eof_after_end (input : List Nat) (m : Nat) (h : input.length ≤ m) :
    tokenAt input m = ⟨.EOF, []⟩ := by
  obtain ⟨h1, h2, h3⟩ := lexState_facts input m
  exact nextToken_eof _ h1 (by rw [h2]; omega)

/-- Witness for C8: lexing `let x = 5;` (10 bytes), every call from the
10th onwards returns EOF. -/
theorem c8_eof_after_end_witness :
    tokenAt (strBytes "let x = 5;") 10 = ⟨.EOF, []⟩ ∧
    tokenAt (strBytes "let x = 5;") 11 = ⟨.EOF, []⟩ := by
  exact ⟨c8_eof_after_end (strBytes "let x = 5;") 10 (by decide),
    c8_eof_after_end (strBytes "let x = 5;") 11 (by decide)⟩
